import Mathlib

set_option maxRecDepth 8000

/-!
Shallow embedding of the c3d-rs reader (src/lib.rs) and proofs about it.

Modelling conventions:
* Bytes are `Nat` values `< 256`; byte streams are `List Nat`.
* Rust `String` is represented by its UTF-8 byte list (`List Nat`); a Rust
  `char` by its Unicode scalar value (`Nat`).
* `f32` values are represented by exact rationals (`ℚ`).  Every floating-point
  operation exercised by the theorems below is exact in IEEE binary32
  (small integers, multiplication/division by 0.25, sums of small integers),
  so the rational semantics coincides with the f32 semantics there.  The
  literal `-0.01_f32` is modelled by `-1/100`; the values it is compared with
  in the theorems are quarter-integers, which order the same way against
  `-1/100` as against the true binary32 value of `-0.01`.
* Machine-integer casts are explicit: `toSigned8`/`toSigned16` reinterpret
  little-endian bytes, `sWrap16`/`sWrap32` wrap to `i16`/`i32` (release-mode
  two's-complement semantics), `usizeOfInt` is `as usize` (sign extension
  mod `2^64`).
* A Rust panic / `unwrap` failure / allocation abort is modelled by `none`.
* `HashMap`s are modelled by association lists in insertion order.
-/

/-- Reinterpret a byte as an `i8`. -/
def toSigned8 (b : Nat) : Int :=
  if b % 256 < 128 then (b % 256 : Nat) else (b % 256 : Nat) - 256

/-- Reinterpret a 16-bit little-endian value as an `i16`. -/
def toSigned16 (v : Nat) : Int :=
  if v % 65536 < 32768 then (v % 65536 : Nat) else (v % 65536 : Nat) - 65536

/-- Wrap an integer to `i16` (two's complement, release-mode overflow). -/
def sWrap16 (x : Int) : Int :=
  let m := x.emod 65536
  if m < 32768 then m else m - 65536

/-- Wrap an integer to `i32` (two's complement, release-mode overflow). -/
def sWrap32 (x : Int) : Int :=
  let m := x.emod 4294967296
  if m < 2147483648 then m else m - 4294967296

/-- Cast an integer to `usize` (`as usize`: sign extension, mod `2^64`). -/
def usizeOfInt (x : Int) : Nat :=
  (x.emod 18446744073709551616).toNat

/-- Release-mode `i8::abs`: `|x|` except that `(-128).abs()` wraps to `-128`. -/
def i8AbsWrap (x : Int) : Int :=
  if x = -128 then -128 else (x.natAbs : Int)

/-- `name_chars_size.abs() as usize` in release mode. -/
def i8AbsUsize (x : Int) : Nat :=
  usizeOfInt (i8AbsWrap x)

/-- The 16-bit value of the first two bytes of a chunk, little endian. -/
def le16 (c : List Nat) : Nat :=
  c.getD 0 0 + 256 * c.getD 1 0

/-- `slice::chunks_exact`: the full chunks of size `k`; the remainder (and,
for `k = 0`, everything — the caller models the `k = 0` panic separately)
is dropped. -/
def chunksExact (k : Nat) (l : List Nat) : List (List Nat) :=
  (List.range (l.length / k)).map (fun i => (l.drop (i * k)).take k)

/-- `Read::read_exact` of `n` bytes from a stream: the bytes read and the
rest of the stream, or `none` when the stream is too short. -/
def readExact (n : Nat) (s : List Nat) : Option (List Nat × List Nat) :=
  if n ≤ s.length then some (s.take n, s.drop n) else none

/-- `i16` bitwise AND, via the 16-bit two's-complement bit patterns. -/
def land16 (a b : Int) : Int :=
  toSigned16 (Nat.land ((a.emod 65536).toNat) ((b.emod 65536).toNat))

/-- The value of a finite IEEE binary32 number with the given 32-bit pattern,
as an exact rational.  NaN and infinity (exponent 255) are outside the model
and are mapped to 0; no theorem below depends on them. -/
def f32ValOfBits (bits : Nat) : ℚ :=
  let b := bits % 4294967296
  let sign : ℚ := if b / 2147483648 = 1 then -1 else 1
  let e := (b / 8388608) % 256
  let m := b % 8388608
  if e = 255 then 0
  else if e = 0 then sign * m / (2 ^ 149 : ℚ)
  else sign * ((2 ^ 23 + m : Nat) : ℚ) * (2 ^ e : ℚ) / (2 ^ 150 : ℚ)

/-- `f32::from_le_bytes` on a 4-byte chunk, as an exact rational. -/
def f32FromLeBytes (c : List Nat) : ℚ :=
  f32ValOfBits (c.getD 0 0 + 256 * c.getD 1 0 + 65536 * c.getD 2 0
    + 16777216 * c.getD 3 0)

/-- Truncation toward zero of a rational (the rounding used by `as i16`
on an `f32`). -/
def ratTrunc (q : ℚ) : Int :=
  Int.tdiv q.num (q.den : Int)

/-- `f32 as i16` in Rust: truncate toward zero and saturate to the
`i16` range. -/
def f32AsI16 (q : ℚ) : Int :=
  max (-32768) (min 32767 (ratTrunc q))

/-- `char::is_whitespace`: the Unicode `White_Space` code points. -/
def isRustWhitespace (c : Nat) : Bool :=
  c ∈ [9, 10, 11, 12, 13, 32, 133, 160, 5760, 8192, 8193, 8194, 8195, 8196,
    8197, 8198, 8199, 8200, 8201, 8202, 8232, 8233, 8239, 8287, 12288]

/-- `String::from_utf8` succeeds exactly on valid UTF-8.  Standard
validation of a byte list. -/
def validUtf8 : List Nat → Bool
  | [] => true
  | a :: t =>
    if a < 128 then validUtf8 t
    else if 194 ≤ a && a ≤ 223 then
      match t with
      | b :: t' => (128 ≤ b && b ≤ 191) && validUtf8 t'
      | [] => false
    else if a = 224 then
      match t with
      | b :: c :: t' => (160 ≤ b && b ≤ 191) && (128 ≤ c && c ≤ 191) && validUtf8 t'
      | _ => false
    else if (225 ≤ a && a ≤ 236) || a = 238 || a = 239 then
      match t with
      | b :: c :: t' => (128 ≤ b && b ≤ 191) && (128 ≤ c && c ≤ 191) && validUtf8 t'
      | _ => false
    else if a = 237 then
      match t with
      | b :: c :: t' => (128 ≤ b && b ≤ 159) && (128 ≤ c && c ≤ 191) && validUtf8 t'
      | _ => false
    else if a = 240 then
      match t with
      | b :: c :: d :: t' =>
        (144 ≤ b && b ≤ 191) && (128 ≤ c && c ≤ 191) && (128 ≤ d && d ≤ 191)
          && validUtf8 t'
      | _ => false
    else if 241 ≤ a && a ≤ 243 then
      match t with
      | b :: c :: d :: t' =>
        (128 ≤ b && b ≤ 191) && (128 ≤ c && c ≤ 191) && (128 ≤ d && d ≤ 191)
          && validUtf8 t'
      | _ => false
    else if a = 244 then
      match t with
      | b :: c :: d :: t' =>
        (128 ≤ b && b ≤ 143) && (128 ≤ c && c ≤ 191) && (128 ≤ d && d ≤ 191)
          && validUtf8 t'
      | _ => false
    else false

/-- The scalar value kinds stored in a parameter payload
(`Box<dyn ParamValue>`). -/
inductive ParamVal where
  | pchar (c : Nat)
  | pbyte (b : Nat)
  | pint (v : Int)
  | pfloat (q : ℚ)
  deriving DecidableEq, Repr

/-- `ParamValue::as_char`. -/
def ParamVal.asChar : ParamVal → Option Nat
  | .pchar c => some c
  | _ => none

/-- `ParamValue::as_i16`. -/
def ParamVal.asI16 : ParamVal → Option Int
  | .pint v => some v
  | _ => none

/-- `ParamValue::as_f32`. -/
def ParamVal.asF32 : ParamVal → Option ℚ
  | .pfloat q => some q
  | _ => none

/-- `ParamValue::as_u8`. -/
def ParamVal.asU8 : ParamVal → Option Nat
  | .pbyte b => some b
  | _ => none

/-- `ParamData`: the heterogeneous value sequence of a parameter, plus the
locked flag. -/
structure ParamData where
  values : List ParamVal
  locked : Bool
  deriving DecidableEq, Repr

/-- `ParameterFormat`: one decoded parameter entry. -/
structure ParameterFormat where
  nameCharsSize : Nat
  id : Int
  name : List Nat
  offset : Int
  dataLength : Int
  numDimensions : Nat
  dimensions : List Nat
  parameterData : ParamData
  descCharsSize : Nat
  description : List Nat
  deriving DecidableEq, Repr

/-- `GroupFormat`: one decoded group with its parameters
(`HashMap<String, ParameterFormat>` as an association list). -/
structure GroupFormat where
  name : List Nat
  description : List Nat
  locked : Bool
  params : List (List Nat × ParameterFormat)
  deriving DecidableEq, Repr

/-- Lookup in an association list (models `HashMap::get`). -/
def alistGet {α : Type} [DecidableEq α] {β : Type} (l : List (α × β)) (k : α) :
    Option β :=
  match l with
  | [] => none
  | (k', v) :: t => if k' = k then some v else alistGet t k

/-- Update the value at a key if present, else append
(models `HashMap::insert` / mutation through `get_mut`). -/
def alistPut {α : Type} [DecidableEq α] {β : Type} (l : List (α × β)) (k : α)
    (v : β) : List (α × β) :=
  match l with
  | [] => [(k, v)]
  | (k', v') :: t => if k' = k then (k, v) :: t else (k', v') :: alistPut t k v

/-- The group staging map of the decoder, keyed by numeric group id. -/
abbrev Groups : Type := List (Nat × GroupFormat)

/-- The data read by the parameter trailer of `ParameterBlock::from_reader`
(lines 459–509 of src/lib.rs), starting right after the offset field. -/
structure TrailerOut where
  dataLength : Int
  numDimensions : Nat
  dimensions : List Nat
  values : List ParamVal
  descCharsSize : Nat
  description : List Nat
  deriving DecidableEq, Repr

/-- The parameter trailer decoder.  `nameBytes` is the current content of
the reused `string_buffer` (the entry's name); `s` is the byte stream at the
cursor, positioned just after the 2-byte offset field.  Mirrors the source:

* `data_length` (i8) and the dimension count are read, then the dimensions;
* `num_elements` is an `i32` product of the dimensions (wrapping);
* `total_data_length = num_elements as i16 * data_length.abs() as i16`
  (`i8::abs` wraps at `-128`, the `i16` product wraps), cast `as usize`;
* that many payload bytes are read and split by
  `chunks_exact(data_length.abs() as usize)` — a `data_length` of 0 panics
  there (`none`);
* each chunk decodes per `data_length` (1 ⇒ byte, 2 ⇒ i16, 4 ⇒ f32,
  −1 ⇒ char, anything else is dropped by the `filter_map`);
* the description length byte is read, but the description **bytes are
  never read**: the code only resizes the reused `string_buffer`, so the
  description is the name truncated/zero-padded to `desc_len`
  (`String::from_utf8` panics on invalid UTF-8).

Returns the trailer and the rest of the stream, or `none` on panic. -/
def paramTrailer (nameBytes s : List Nat) : Option (TrailerOut × List Nat) :=
  match s[0]?, s[1]? with
  | some dlB, some ndB =>
    let dlI := toSigned8 dlB
    let nd := ndB
    if s.length < 2 + nd then none else
    let dims := (s.drop 2).take nd
    let numElements : Int :=
      dims.foldl (fun (acc : Int) (d : Nat) => sWrap32 (acc * (d : Int))) 1
    let dlAbs : Int := i8AbsWrap dlI
    let total16 : Int := sWrap16 (sWrap16 numElements * sWrap16 dlAbs)
    let totalU : Nat := usizeOfInt total16
    if s.length < 2 + nd + totalU then none else
    let dataBytes := (s.drop (2 + nd)).take totalU
    let chunkSz := usizeOfInt dlAbs
    if chunkSz = 0 then none else
    let values := (chunksExact chunkSz dataBytes).filterMap (fun c =>
      if dlI = 1 then some (ParamVal.pbyte (c.getD 0 0))
      else if dlI = 2 then some (ParamVal.pint (toSigned16 (le16 c)))
      else if dlI = 4 then some (ParamVal.pfloat (f32FromLeBytes c))
      else if dlI = -1 then some (ParamVal.pchar (c.getD 0 0))
      else none)
    match s[2 + nd + totalU]? with
    | none => none
    | some descLen =>
      let desc := nameBytes.take descLen
        ++ List.replicate (descLen - nameBytes.length) 0
      if ¬ validUtf8 desc then none else
      some ({ dataLength := dlI, numDimensions := nd, dimensions := dims,
              values := values, descCharsSize := descLen,
              description := desc },
            s.drop (2 + nd + totalU + 1))
  | _, _ => none

/-- The outcome of one iteration of the entry walk in
`ParameterBlock::from_reader`. -/
inductive StepRes where
  | panic
  | stop
  | next (g : Groups) (n : Nat) (off : Int)
  deriving DecidableEq, Repr

/-- One iteration of the entry walk (the body of the `loop` in
`ParameterBlock::from_reader`), up to but not including the final
`split_off` cursor re-seating.  `buf` is the remaining parameter buffer
(the cursor is at position 0), `groups` the staging map.

* Two bytes are read (`name_chars_size` as i8, `id` as i8); a short read is
  a panicking `unwrap` (`.panic`).
* If `id == 0` or the name size is 0 the loop breaks (`.stop`).
* The name (`|name_len|` bytes; `String::from_utf8` panics on invalid
  UTF-8) and the 2-byte offset field are read.
* `id > 0`: the parameter trailer is decoded (see `paramTrailer`) and the
  parameter inserted into group `id` (created with default fields when
  absent).
* `id < 0`: the description length byte is read; the description bytes are
  **not** read (same bug as in `paramTrailer`); an existing group keeps its
  params and locked flag but gets this name/description, otherwise a new
  group is created.
* `.next` carries the updated groups, the name size and the offset; the
  caller performs the `split_off` advance. -/
def entryStep (buf : List Nat) (groups : Groups) : StepRes :=
  match buf[0]? with
  | none => .panic
  | some b0 =>
    match buf[1]? with
    | none => .panic
    | some b1 =>
      let nameLenI := toSigned8 b0
      let locked : Bool := decide (nameLenI < 0)
      let n : Nat := i8AbsUsize nameLenI
      let id := toSigned8 b1
      if id = 0 ∨ n = 0 then .stop
      else if buf.length < 2 + n then .panic
      else
        let nameBytes := (buf.drop 2).take n
        if ¬ validUtf8 nameBytes then .panic else
        match buf[2 + n]?, buf[3 + n]? with
        | some lo, some hi =>
          let off := toSigned16 (lo + 256 * hi)
          if 0 < id then
            match paramTrailer nameBytes (buf.drop (4 + n)) with
            | none => .panic
            | some (tr, _) =>
              let param : ParameterFormat :=
                { nameCharsSize := n, id := id, name := nameBytes,
                  offset := off, dataLength := tr.dataLength,
                  numDimensions := tr.numDimensions,
                  dimensions := tr.dimensions,
                  parameterData := { values := tr.values, locked := locked },
                  descCharsSize := tr.descCharsSize,
                  description := tr.description }
              let gid := id.toNat
              let groups' :=
                match alistGet groups gid with
                | some g =>
                  alistPut groups gid
                    { g with params := alistPut g.params nameBytes param }
                | none =>
                  alistPut groups gid
                    { name := [], description := [], locked := false,
                      params := [(nameBytes, param)] }
              .next groups' n off
          else
            match buf[4 + n]? with
            | none => .panic
            | some descLen =>
              let desc := nameBytes.take descLen
                ++ List.replicate (descLen - nameBytes.length) 0
              if ¬ validUtf8 desc then .panic else
              let gid := id.natAbs
              let groups' :=
                match alistGet groups gid with
                | some g =>
                  alistPut groups gid
                    { g with name := nameBytes, description := desc }
                | none =>
                  alistPut groups gid
                    { name := nameBytes, description := desc,
                      locked := locked, params := [] }
              .next groups' n off
        | _, _ => .panic

/-- The entry walk: iterate `entryStep` and re-seat the cursor with
`parameter_buf.split_off(2 + name_chars_size + offset)` (`as usize`
arithmetic; an out-of-range index makes `split_off` panic).  The walk is
fuel-indexed; exhausted fuel (only reachable through degenerate negative
offsets, where the original loop never terminates) is also `none`. -/
def walkGo : Nat → List Nat → Groups → Option Groups
  | 0, _, _ => none
  | fuel + 1, buf, g =>
    match entryStep buf g with
    | .panic => none
    | .stop => some g
    | .next g' n off =>
      let idx := usizeOfInt (2 + (n : Int) + off)
      if buf.length < idx then none
      else walkGo fuel (buf.drop idx) g'

/-- The complete entry walk over a parameter buffer.  Each genuine iteration
consumes at least 3 buffer bytes, so `length + 2` fuel is never exhausted on
a terminating run. -/
def parameterWalk (buf : List Nat) : Option Groups :=
  walkGo (buf.length + 2) buf []

/-- The 4-byte parameter section sub-header. -/
structure ParameterBlockHeader where
  reservedOne : Nat
  reservedTwo : Nat
  parameterBlockCounts : Nat
  magicWord : Nat
  deriving DecidableEq, Repr

/-- `ParameterBlock`: the sub-header plus the groups re-keyed by name. -/
structure ParameterBlock where
  header : ParameterBlockHeader
  groups : List (List Nat × GroupFormat)
  deriving DecidableEq, Repr

/-- `str::split` on a one-byte separator, over UTF-8 byte lists.  Always
returns at least one piece. -/
def splitOnByte (sep : Nat) : List Nat → List (List Nat)
  | [] => [[]]
  | b :: t =>
    match splitOnByte sep t with
    | [] => [[]]
    | h :: rest => if b = sep then [] :: h :: rest else (b :: h) :: rest

/-- `ParameterBlock::get`: pick `"."` as separator when the key contains
one, else `":"`, else return `none`; split, and look up the first piece as
the group and the second piece as the parameter.  (`46`/`58` are the UTF-8
bytes of `'.'`/`':'`.) -/
def ParameterBlock.get (pb : ParameterBlock) (key : List Nat) :
    Option ParameterFormat :=
  let sep : Option Nat :=
    if key.contains 46 then some 46
    else if key.contains 58 then some 58
    else none
  match sep with
  | none => none
  | some c =>
    let parts := splitOnByte c key
    let groupKey := parts.headD []
    let paramKey := (parts.drop 1).headD []
    match alistGet pb.groups groupKey with
    | none => none
    | some group => alistGet group.params paramKey

/-- The header fields consumed by the reader (`HeaderBlock`, a packed
512-byte struct; event-table and reserved areas are carried in the file but
never read by the code under proof, so they are not modelled). -/
structure HeaderVals where
  parameterStart : Nat
  magicWord : Nat
  pointCounts : Nat
  analogCounts : Nat
  frameFirst : Nat
  frameLast : Nat
  maxGap : Nat
  scale : ℚ
  dataStart : Nat
  analogPerFrame : Nat
  frameRate : ℚ
  deriving DecidableEq, Repr

/-- `HeaderBlock::from_reader`: `read_exact` of the 512-byte block into the
packed struct (little-endian fields at their `repr(C, packed)` offsets); a
short read panics through `unwrap` (`none`). -/
def headerFromReader (s : List Nat) : Option (HeaderVals × List Nat) :=
  if s.length < 512 then none
  else
    some
      ({ parameterStart := s.getD 0 0,
         magicWord := s.getD 1 0,
         pointCounts := s.getD 2 0 + 256 * s.getD 3 0,
         analogCounts := s.getD 4 0 + 256 * s.getD 5 0,
         frameFirst := s.getD 6 0 + 256 * s.getD 7 0,
         frameLast := s.getD 8 0 + 256 * s.getD 9 0,
         maxGap := s.getD 10 0 + 256 * s.getD 11 0,
         scale := f32FromLeBytes [s.getD 12 0, s.getD 13 0, s.getD 14 0, s.getD 15 0],
         dataStart := s.getD 16 0 + 256 * s.getD 17 0,
         analogPerFrame := s.getD 18 0 + 256 * s.getD 19 0,
         frameRate := f32FromLeBytes [s.getD 20 0, s.getD 21 0, s.getD 22 0, s.getD 23 0] },
       s.drop 512)

/-- Re-key the staging map from numeric id to group name
(the final `collect` in `ParameterBlock::from_reader`). -/
def rekeyGroups (g : Groups) : List (List Nat × GroupFormat) :=
  g.map (fun p => (p.2.name, p.2))

/-- `ParameterBlock::from_reader`: read the 4-byte sub-header, then
`parameter_block_counts * 512 - 4` buffer bytes (a block count of 0 makes
the subtraction abort), run the entry walk and re-key by name.  Any panic
inside is `none`. -/
def paramBlockFromReader (s : List Nat) : Option (ParameterBlock × List Nat) :=
  if s.length < 4 then none
  else
    let counts := s.getD 2 0
    if counts = 0 then none
    else
      match readExact (counts * 512 - 4) (s.drop 4) with
      | none => none
      | some (buf, rest) =>
        match parameterWalk buf with
        | none => none
        | some groups =>
          some ({ header := { reservedOne := s.getD 0 0, reservedTwo := s.getD 1 0,
                              parameterBlockCounts := counts, magicWord := s.getD 3 0 },
                  groups := rekeyGroups groups },
                rest)

/-- The library's error enum (`ParserError`).  It has no `Truncated`
variant. -/
inductive ParserError where
  | UnmatchMagic
  | ParseParameterError
  | IoError
  | MissingField
  deriving DecidableEq, Repr

/-- `C3dAdapter::construct` applied to a byte source: decode the header,
then the parameter section (both panic on short structural reads — `none`),
then check the two magic words (`0x50`, `0x54`), returning `UnmatchMagic`
errors as values. -/
def constructC3d (src : List Nat) :
    Option (Except ParserError (HeaderVals × ParameterBlock)) :=
  match headerFromReader src with
  | none => none
  | some (header, rest) =>
    match paramBlockFromReader rest with
    | none => none
    | some (parameter, _) =>
      if header.magicWord ≠ 80 then some (Except.error ParserError.UnmatchMagic)
      else if parameter.header.magicWord ≠ 84 then
        some (Except.error ParserError.UnmatchMagic)
      else some (Except.ok (header, parameter))

/-- `Option::and`. -/
def optAnd {α β : Type} (a : Option α) (b : Option β) : Option β :=
  match a with
  | none => none
  | some _ => b

/-- The analog calibration data gathered by `C3dReader::new` from the
parameter dictionary. -/
structure AnalogCfg where
  unsigned : Bool
  offsets : Option (List ℚ)
  scales : Option (List ℚ)
  genScale : Option ℚ
  deriving DecidableEq, Repr

/-- The UTF-8 bytes of `"ANALOG:FORMAT"`. -/
def keyAnalogFormat : List Nat := [65, 78, 65, 76, 79, 71, 58, 70, 79, 82, 77, 65, 84]

/-- The UTF-8 bytes of `"ANALOG:OFFSET"`. -/
def keyAnalogOffset : List Nat := [65, 78, 65, 76, 79, 71, 58, 79, 70, 70, 83, 69, 84]

/-- The UTF-8 bytes of `"ANALOG:SCALE"`. -/
def keyAnalogScale : List Nat := [65, 78, 65, 76, 79, 71, 58, 83, 67, 65, 76, 69]

/-- The UTF-8 bytes of `"ANALOG:GEN_SCALE"`. -/
def keyAnalogGenScale : List Nat :=
  [65, 78, 65, 76, 79, 71, 58, 71, 69, 78, 95, 83, 67, 65, 76, 69]

/-- The code points of `"UNSIGNED"`. -/
def unsignedChars : List Nat := [85, 78, 83, 73, 71, 78, 69, 68]

/-- The analog-calibration part of `C3dReader::new`.  Note the `.and`:
the whitespace-stripped `ANALOG:FORMAT` string is built and then
**discarded** — `analog_unsigned` is `(get(..).map(..)).and(Some("UNSIGNED")).is_some()`,
i.e. true exactly when the parameter is present. -/
def readerCfg (pb : ParameterBlock) : AnalogCfg :=
  { unsigned :=
      (optAnd
        ((pb.get keyAnalogFormat).map (fun param =>
          ((param.parameterData.values.filterMap ParamVal.asChar).filter
            (fun c => ¬ isRustWhitespace c))))
        (some unsignedChars)).isSome,
    offsets :=
      (pb.get keyAnalogOffset).map (fun v =>
        (v.parameterData.values.filterMap ParamVal.asI16).map (fun a => (a : ℚ))),
    scales :=
      (pb.get keyAnalogScale).map (fun v =>
        v.parameterData.values.filterMap ParamVal.asF32),
    genScale :=
      ((pb.get keyAnalogGenScale).map (fun v =>
        (v.parameterData.values.filterMap ParamVal.asF32).head?)).join }

/-- The byte length of one points record:
`(4 * point_counts) * point_data_length`, in `u16` arithmetic. -/
def pointsRecordBytes (h : HeaderVals) : Nat :=
  ((4 * h.pointCounts) % 65536 * (if h.scale ≤ 0 then 4 else 2)) % 65536

/-- The byte length of one analog record:
`analog_counts * analog_data_length`, in `u16` arithmetic. -/
def analogRecordBytes (h : HeaderVals) : Nat :=
  (h.analogCounts % 65536 * (if h.scale ≤ 0 then 4 else 2)) % 65536

/-- The camera field: `(8..17).map(|idx| (err & (idx << 8)) as f32).sum()`. -/
def camSum (err : Int) : ℚ :=
  (((List.range' 8 9).map (fun k => ((land16 err (k * 256) : Int) : ℚ)))).sum

/-- Decoding of one points record (the two `map`s over
`chunks_exact(4 * point_data_length)` in `Iterator::next`):

* each point word is 4 consecutive elements, decoded as f32 (float mode) or
  as `i16 as f32 * point_scale` (integer mode — note that the fourth
  element is scaled too), copied into `[f32; 5]` whose fifth slot is 0;
* then, if the fourth value is `≤ -0.01`, the fourth and fifth become the
  `-0.01` sentinel, else `err = arr[3] as i16` and the residual is
  `(err & 0xff) as f32 * scale.abs()` with `camSum err` as fifth. -/
def pointsDecode (isFloat : Bool) (pointScale scaleAbs : ℚ) (bytes : List Nat) :
    List (List ℚ) :=
  let pdl : Nat := if isFloat then 4 else 2
  (chunksExact (4 * pdl) bytes).map (fun word =>
    let rawVec := (chunksExact pdl word).map (fun arr =>
      if isFloat then f32FromLeBytes arr
      else (toSigned16 (le16 arr) : ℚ) * pointScale)
    let r0 := rawVec.getD 0 0
    let r1 := rawVec.getD 1 0
    let r2 := rawVec.getD 2 0
    let fourth := rawVec.getD 3 0
    if fourth ≤ -1 / 100 then [r0, r1, r2, -1 / 100, -1 / 100]
    else
      let err := f32AsI16 fourth
      [r0, r1, r2, ((land16 err 255 : Int) : ℚ) * scaleAbs, camSum err])

/-- `values.iter_mut().zip(offsets).for_each(|(v, off)| *v -= *off)`:
pairs are subtracted element-wise up to the shorter length; trailing
values pass through. -/
def zipSub : List ℚ → List ℚ → List ℚ
  | [], _ => []
  | v :: vs, [] => v :: vs
  | v :: vs, o :: os => (v - o) :: zipSub vs os

/-- The same for the per-channel multiplication by `ANALOG:SCALE`. -/
def zipMul : List ℚ → List ℚ → List ℚ
  | [], _ => []
  | v :: vs, [] => v :: vs
  | v :: vs, o :: os => (v * o) :: zipMul vs os

/-- Decoding of one analog record: per-sample f32 / u16-as-f32 / i16-as-f32,
then offset subtraction, per-channel scale, and general scale, each applied
only when present. -/
def analogDecode (cfg : AnalogCfg) (isFloat : Bool) (bytes : List Nat) :
    List ℚ :=
  let adl : Nat := if isFloat then 4 else 2
  let values := (chunksExact adl bytes).map (fun arr =>
    if isFloat then f32FromLeBytes arr
    else if cfg.unsigned then ((le16 arr : Nat) : ℚ)
    else ((toSigned16 (le16 arr) : Int) : ℚ))
  let values := match cfg.offsets with
    | some offs => zipSub values offs
    | none => values
  let values := match cfg.scales with
    | some scs => zipMul values scs
    | none => values
  match cfg.genScale with
  | some g => values.map (fun v => v * g)
  | none => values

/-- The mutable state of a `C3dReader`: the frame counter and the remaining
byte stream of the handle (positioned at the next unread data byte). -/
structure RState where
  frameIdx : Nat
  stream : List Nat
  deriving DecidableEq, Repr

/-- One frame emitted by the iterator:
`(u16, PointData, Option<AnalogData>)`. -/
abbrev Frame : Type := Nat × List (List ℚ) × Option (List ℚ)

/-- `Iterator::next` for `C3dReader`: `none` once `frame_idx` passes
`frame_last` or on any short read; otherwise the decoded frame, with
`frame_idx` incremented (u16 wrap) only on success.  On a short read the
Rust code leaves the handle position unspecified; the model keeps the
pre-call stream (no theorem depends on it). -/
def nextC3d (h : HeaderVals) (cfg : AnalogCfg) (s : RState) :
    Option Frame × RState :=
  if h.frameLast < s.frameIdx then (none, s)
  else
    let isFloat : Bool := decide (h.scale ≤ 0)
    let pointScale : ℚ := if isFloat then 1 else |h.scale|
    match readExact (pointsRecordBytes h) s.stream with
    | none => (none, s)
    | some (pBytes, rest) =>
      let values := pointsDecode isFloat pointScale |h.scale| pBytes
      if 0 < h.analogCounts then
        match readExact (analogRecordBytes h) rest with
        | none => (none, s)
        | some (aBytes, rest2) =>
          (some (s.frameIdx, values, some (analogDecode cfg isFloat aBytes)),
           { frameIdx := (s.frameIdx + 1) % 65536, stream := rest2 })
      else
        (some (s.frameIdx, values, none),
         { frameIdx := (s.frameIdx + 1) % 65536, stream := rest })

/-- A parameter block with no groups (scenario 2 of the spec has no
`ANALOG` parameters). -/
def pbNoParams : ParameterBlock :=
  { header := { reservedOne := 0, reservedTwo := 0, parameterBlockCounts := 1,
                magicWord := 84 },
    groups := [] }

/-- The analog configuration derived from `pbNoParams`. -/
def cfgNoParams : AnalogCfg := readerCfg pbNoParams

/-- The header of the spec's scenario 2 (minimal integer file):
`point_counts = 1`, `analog_counts = 0`, frames 1..2, `scale = 0.25`. -/
def hdrMinInt : HeaderVals :=
  { parameterStart := 2, magicWord := 80, pointCounts := 1, analogCounts := 0,
    frameFirst := 1, frameLast := 2, maxGap := 0, scale := 1 / 4,
    dataStart := 3, analogPerFrame := 0, frameRate := 0 }

/-- The reader state at the data start of scenario 2: frame counter at
`frame_first = 1`, the stream holding the two point words
`(4, 8, 12, 0x0105)` and `(-4, 0, 16, -1)` as little-endian `i16`s. -/
def rsMinInt : RState :=
  { frameIdx := 1,
    stream := [4, 0, 8, 0, 12, 0, 5, 1, 252, 255, 0, 0, 16, 0, 255, 255] }

/-- An integer-mode header with one analog channel and no points
(frames 1..1, `scale = 1`). -/
def hdrAnalogOne : HeaderVals :=
  { parameterStart := 2, magicWord := 80, pointCounts := 0, analogCounts := 1,
    frameFirst := 1, frameLast := 1, maxGap := 0, scale := 1, dataStart := 3,
    analogPerFrame := 1, frameRate := 0 }

/-- A parameter block whose `ANALOG:FORMAT` parameter holds the chars
`"SIGNED"`. -/
def pbAnalogSigned : ParameterBlock :=
  { header := { reservedOne := 0, reservedTwo := 0, parameterBlockCounts := 1,
                magicWord := 84 },
    groups := [([65, 78, 65, 76, 79, 71],
      { name := [65, 78, 65, 76, 79, 71], description := [], locked := false,
        params := [([70, 79, 82, 77, 65, 84],
          { nameCharsSize := 6, id := 1, name := [70, 79, 82, 77, 65, 84],
            offset := 0, dataLength := -1, numDimensions := 1,
            dimensions := [6],
            parameterData :=
              { values := [.pchar 83, .pchar 73, .pchar 71, .pchar 78,
                           .pchar 69, .pchar 68],
                locked := false },
            descCharsSize := 0, description := [] })] })] }

/-- A parameter whose name is `"B.C"` (used by the C6 counterexample). -/
def pvDotName : ParameterFormat :=
  { nameCharsSize := 3, id := 1, name := [66, 46, 67], offset := 0,
    dataLength := -1, numDimensions := 0, dimensions := [],
    parameterData := { values := [], locked := false },
    descCharsSize := 0, description := [] }

/-- A parameter block with a group `"A"` holding the parameter `"B.C"`. -/
def pbDotName : ParameterBlock :=
  { header := { reservedOne := 0, reservedTwo := 0, parameterBlockCounts := 1,
                magicWord := 84 },
    groups := [([65],
      { name := [65], description := [], locked := false,
        params := [([66, 46, 67], pvDotName)] })] }

/-- A parameter `"P"` of a group `"G"` (used by the C6 witness). -/
def pvSimple : ParameterFormat :=
  { nameCharsSize := 1, id := 1, name := [80], offset := 0, dataLength := -1,
    numDimensions := 0, dimensions := [],
    parameterData := { values := [], locked := false },
    descCharsSize := 0, description := [] }

/-- A parameter block with a group `"G"` holding the parameter `"P"`. -/
def pbSimple : ParameterBlock :=
  { header := { reservedOne := 0, reservedTwo := 0, parameterBlockCounts := 1,
                magicWord := 84 },
    groups := [([71],
      { name := [71], description := [], locked := false,
        params := [([80], pvSimple)] })] }

/-- Following the words of the spec and of claim C6 only (not the code),
for comparison with `ParameterBlock.get`: the key is split at whichever
separator (`:` or `.`) occurs first in the key; the text before it is the
group name and the text after it the parameter name; a key with no
separator yields nothing. -/
def specFirstSepGet (pb : ParameterBlock) (key : List Nat) :
    Option ParameterFormat :=
  let g := key.takeWhile (fun b => !(b == 46) && !(b == 58))
  if g.length = key.length then none
  else
    match alistGet pb.groups g with
    | none => none
    | some group => alistGet group.params (key.drop (g.length + 1))

/-- A 508-byte parameter buffer (one parameter block) whose single group
entry carries `offset = 504`, landing the cursor one byte before the end of
the buffer. -/
def bufOneByteLeft : List Nat := [1, 255, 71, 248, 1, 0] ++ List.replicate 502 0

/-- Helper: `read_exact` fails exactly on a too-short stream. -/
theorem readExact_eq_none_iff (n : Nat) (s : List Nat) :
    readExact n s = none ↔ s.length < n := by
  unfold readExact
  split <;> simp <;> omega

/-- Helper: a successful `read_exact` takes and drops `n` bytes. -/
theorem readExact_eq_some (n : Nat) (s : List Nat) (a b : List Nat)
    (h : readExact n s = some (a, b)) :
    a = s.take n ∧ b = s.drop n ∧ n ≤ s.length := by
  unfold readExact at h
  split at h
  · simp only [Option.some.injEq, Prod.mk.injEq] at h
    exact ⟨h.1.symm, h.2.symm, by assumption⟩
  · simp at h

/-- Helper: any source shorter than 512 bytes makes `construct` panic in
the header decoder (modelled by `none`). -/
theorem constructC3d_of_short (src : List Nat) (h : src.length < 512) :
    constructC3d src = none := by
  unfold constructC3d headerFromReader
  simp [h]

/-- C1 (counterexample): on the minimal integer file of scenario 2 the
first item the iterator yields is `(1, [[1, 2, 3, 16.25, 0]], none)` —
the residual is `16.25`, not the claimed `1.25`, and the cameras value is
`0`, not the claimed `256`, because the fourth point word is multiplied by
the scale and truncated back to `i16` before the bit unpacking. -/
theorem c1_counterexample :
    (nextC3d hdrMinInt cfgNoParams rsMinInt).1
      = some (1, [[1, 2, 3, 65 / 4, 0]], none)
    ∧ (65 : ℚ) / 4 ≠ 5 / 4 ∧ (0 : ℚ) ≠ 256 := by
  refine ⟨by with_unfolding_all rfl, by norm_num, by norm_num⟩

/-- C1 (amended): on the minimal integer file of scenario 2 the iterator
yields exactly `(1, [[1, 2, 3, 16.25, 0]], none)`, then
`(2, [[-1, 0, 4, -0.01, -0.01]], none)`, then end of stream. -/
theorem c1_amended_run :
    nextC3d hdrMinInt cfgNoParams rsMinInt
      = (some (1, [[1, 2, 3, 65 / 4, 0]], none),
         { frameIdx := 2, stream := [252, 255, 0, 0, 16, 0, 255, 255] })
    ∧ nextC3d hdrMinInt cfgNoParams
        { frameIdx := 2, stream := [252, 255, 0, 0, 16, 0, 255, 255] }
      = (some (2, [[-1, 0, 4, -1 / 100, -1 / 100]], none),
         { frameIdx := 3, stream := [] })
    ∧ (nextC3d hdrMinInt cfgNoParams { frameIdx := 3, stream := [] }).1
      = none := by
  refine ⟨by with_unfolding_all rfl, by with_unfolding_all rfl,
    by with_unfolding_all rfl⟩

/-- C2 (code bug): with `ANALOG:FORMAT = "SIGNED"` present, the reader
still sets `analog_unsigned` (the parsed string is discarded by
`.and(Some("UNSIGNED"))`), so the raw sample `0xFFFF` decodes to `65535`,
not the `-1` that signed decoding — required by the claim — would give. -/
theorem c2_format_ignored :
    (readerCfg pbAnalogSigned).unsigned = true
    ∧ (nextC3d hdrAnalogOne (readerCfg pbAnalogSigned)
        { frameIdx := 1, stream := [255, 255] }).1
      = some (1, [], some [((65535 : Nat) : ℚ)])
    ∧ ((65535 : Nat) : ℚ) ≠ -1 := by
  refine ⟨by with_unfolding_all rfl, by with_unfolding_all rfl, by norm_num⟩

/-- C3 (code bug): in integer mode with `scale = 0.25`, the point word
`(4, 8, 12, 0x0105)` decodes to `[1, 2, 3, 16.25, 0]`: the fourth element
is scaled like the coordinates (`261 * 0.25 = 65.25`) and the unpacking
operates on its `i16` truncation `65`, not on the raw bit pattern
`0x0105` (which would give residual `1.25`). -/
theorem c3_w_scaled :
    pointsDecode false (1 / 4) (1 / 4) [4, 0, 8, 0, 12, 0, 5, 1]
      = [[1, 2, 3, 65 / 4, 0]]
    ∧ (65 : ℚ) / 4 ≠ 5 / 4 := by
  refine ⟨by with_unfolding_all rfl, by norm_num⟩

/-- C4 (code bug): decoding the group entry with name `"AB"` and trailer
`desc_len = 2`, description bytes `"XY"`, stores `"AB"` — the stale content
of the reused name buffer — as the description, because the description
bytes are never read from the cursor. -/
theorem c4_desc_stale :
    entryStep [2, 255, 65, 66, 3, 0, 2, 88, 89] []
      = .next [(1, { name := [65, 66], description := [65, 66],
                     locked := false, params := [] })] 2 3
    ∧ [65, 66] ≠ [88, 89] := by
  refine ⟨by with_unfolding_all rfl, by decide⟩

/-- C5 (counterexample): a 508-byte parameter buffer whose first entry
advances the cursor to one byte before the end.  The claim says the walk
stops when fewer than 2 bytes remain; the code instead panics in the second
`read_exact`'s `unwrap` (modelled by `none`), so no group map is
produced. -/
theorem c5_counterexample : parameterWalk bufOneByteLeft = none := by
  with_unfolding_all decide

/-- C6 (counterexample): for the key `"A:B.C"`, whose first separator is
the `':'` at index 1, the claim's first-occurrence split finds group `"A"`
and parameter `"B.C"` (present in `pbDotName`), but the code prefers `'.'`
over `':'` regardless of position, splits into `"A:B"` / `"C"`, and finds
nothing. -/
theorem c6_counterexample :
    ParameterBlock.get pbDotName [65, 58, 66, 46, 67] = none
    ∧ specFirstSepGet pbDotName [65, 58, 66, 46, 67] = some pvDotName := by
  refine ⟨by with_unfolding_all rfl, by with_unfolding_all rfl⟩

/-- C8 (counterexample): a 511-byte source.  The claim says construction
returns a `Truncated` error value; the code instead panics in the header
decoder's `unwrap` (modelled by `none`) — indeed `ParserError` has no
`Truncated` variant at all. -/
theorem c8_counterexample : constructC3d (List.replicate 511 0) = none :=
  constructC3d_of_short _ (by simp)

/-- C9 (counterexample): a parameter trailer whose `data_length` byte is 0
(which is outside `{-1, 1, 2, 4}`) makes `chunks_exact(0)` panic (modelled
by `none`); the claim instead asserts that decoding succeeds with an empty
value sequence. -/
theorem c9_counterexample : paramTrailer [] [0, 0, 0] = none := by
  with_unfolding_all rfl

/-- Helper: whenever `next` yields no item, the reader state is untouched
(every `None` branch returns `(none, s)`). -/
theorem nextC3d_none_state (h : HeaderVals) (cfg : AnalogCfg) (s : RState)
    (hn : (nextC3d h cfg s).1 = none) : (nextC3d h cfg s).2 = s := by
  simp only [nextC3d] at hn ⊢
  split at hn
  next hg => rw [if_pos hg]
  next hg =>
    rw [if_neg hg]
    split at hn
    next heq => rfl
    next pB rest heq =>
      split at hn
      next hac =>
        rw [if_pos hac]
        split at hn
        next heq2 => rfl
        next aB r2 heq2 => simp at hn
      next hac => simp at hn

/-- C10: when `next()` hits a short read while `frame_idx ≤ frame_last` and
returns end-of-stream, the frame counter is unchanged, and a subsequent call
repeats exactly the same attempt on the same frame index — the iterator is
not fused. -/
theorem c10_not_fused (h : HeaderVals) (cfg : AnalogCfg) (s : RState)
    (_hidx : s.frameIdx ≤ h.frameLast)
    (hn : (nextC3d h cfg s).1 = none) :
    (nextC3d h cfg s).2.frameIdx = s.frameIdx
    ∧ nextC3d h cfg (nextC3d h cfg s).2 = nextC3d h cfg s := by
  have hs := nextC3d_none_state h cfg s hn
  rw [hs]
  exact ⟨rfl, rfl⟩

/-- C10 (witness): the scenario-2 header with a 1-byte stream. -/
theorem c10_witness :
    (nextC3d hdrMinInt cfgNoParams { frameIdx := 1, stream := [0] }).2.frameIdx
      = 1
    ∧ nextC3d hdrMinInt cfgNoParams
        (nextC3d hdrMinInt cfgNoParams { frameIdx := 1, stream := [0] }).2
      = nextC3d hdrMinInt cfgNoParams { frameIdx := 1, stream := [0] } :=
  c10_not_fused hdrMinInt cfgNoParams { frameIdx := 1, stream := [0] }
    (by decide) (by with_unfolding_all rfl)

/-- C7: if the byte source holds fewer bytes than the points record (plus
the analog record when `analog_counts > 0`) requires, `next()` returns
end-of-stream rather than an error or a partial frame, even though
`frame_idx` has not passed `frame_last`. -/
theorem c7_short_read (h : HeaderVals) (cfg : AnalogCfg) (s : RState)
    (hidx : s.frameIdx ≤ h.frameLast)
    (hshort : s.stream.length <
      pointsRecordBytes h
        + (if 0 < h.analogCounts then analogRecordBytes h else 0)) :
    (nextC3d h cfg s).1 = none := by
  simp only [nextC3d]
  rw [if_neg (by omega)]
  split
  next heq => rfl
  next pB rest heq =>
    obtain ⟨hA, hB, hC⟩ := readExact_eq_some _ _ _ _ heq
    by_cases hac : 0 < h.analogCounts
    · rw [if_pos hac]
      split
      next heq2 => rfl
      next aB r2 heq2 =>
        exfalso
        obtain ⟨-, -, hC2⟩ := readExact_eq_some _ _ _ _ heq2
        rw [if_pos hac] at hshort
        rw [hB, List.length_drop] at hC2
        omega
    · rw [if_neg hac]
      exfalso
      rw [if_neg hac] at hshort
      omega

/-- C7 (witness): the scenario-2 header with a 1-byte stream. -/
theorem c7_witness :
    (nextC3d hdrMinInt cfgNoParams { frameIdx := 1, stream := [0] }).1
      = none :=
  c7_short_read hdrMinInt cfgNoParams { frameIdx := 1, stream := [0] }
    (by decide) (by with_unfolding_all decide)

/-- Helper: `i16` wrapping is the identity on `[0, 32768)`. -/
theorem sWrap16_eq_of_lt (x : Int) (h0 : 0 ≤ x) (h : x < 32768) :
    sWrap16 x = x := by
  simp only [sWrap16]
  have he : x.emod 65536 = x := Int.emod_eq_of_lt h0 (by omega)
  rw [he, if_pos h]

/-- Helper: `i32` wrapping is the identity on `[0, 2^31)`. -/
theorem sWrap32_eq_of_lt (x : Int) (h0 : 0 ≤ x) (h : x < 2147483648) :
    sWrap32 x = x := by
  simp only [sWrap32]
  have he : x.emod 4294967296 = x := Int.emod_eq_of_lt h0 (by omega)
  rw [he, if_pos h]

/-- Helper: `as usize` is `toNat` on `[0, 2^64)`. -/
theorem usizeOfInt_eq (x : Int) (h0 : 0 ≤ x)
    (h : x < 18446744073709551616) : usizeOfInt x = x.toNat := by
  simp only [usizeOfInt]
  have he : x.emod 18446744073709551616 = x := Int.emod_eq_of_lt h0 h
  rw [he]

/-- Helper: a `filter_map` whose function never produces a value yields
the empty list. -/
theorem filterMap_none_eq_nil {α β : Type} (f : α → Option β) (l : List α)
    (h : ∀ a, f a = none) : l.filterMap f = [] := by
  induction l with
  | nil => rfl
  | cons x t ih => simp [List.filterMap_cons, h x, ih]

/-- Helper: the wrapping product fold from accumulator 0 stays 0. -/
theorem foldl_wrapMul_zero (dims : List Nat) :
    dims.foldl (fun (acc : Int) (d : Nat) => sWrap32 (acc * (d : Int))) 0 = 0 := by
  induction dims with
  | nil => rfl
  | cons d t ih =>
    have hz : sWrap32 ((0 : Int) * (d : Int)) = 0 := by
      rw [Int.zero_mul]
      exact sWrap32_eq_of_lt 0 le_rfl (by omega)
    simpa [hz] using ih

/-- Helper: a zero dimension forces the wrapping product fold to 0, no
matter what happened before the zero. -/
theorem foldl_wrapMul_mem_zero (dims : List Nat) (h : 0 ∈ dims) :
    ∀ acc : Int, dims.foldl (fun (acc : Int) (d : Nat) => sWrap32 (acc * (d : Int))) acc = 0 := by
  induction dims with
  | nil => exact absurd h (by simp)
  | cons d t ih =>
    intro acc
    by_cases hd : d = 0
    · subst hd
      have hz : sWrap32 (acc * ((0 : Nat) : Int)) = 0 := by
        simp only [Nat.cast_zero, Int.mul_zero]
        exact sWrap32_eq_of_lt 0 le_rfl (by omega)
      simpa [hz] using foldl_wrapMul_zero t
    · have ht : 0 ∈ t := by
        rcases List.mem_cons.mp h with h1 | h1
        · exact absurd h1.symm hd
        · exact h1
      simpa using ih ht _

/-- Helper: without zero dimensions and within the `i32` range, the
wrapping product fold is the exact product. -/
theorem foldl_wrapMul_pos (dims : List Nat) (hnz : ¬ 0 ∈ dims) :
    ∀ acc : Int, 0 ≤ acc → acc * dims.prod ≤ 2147483647 →
      dims.foldl (fun (acc : Int) (d : Nat) => sWrap32 (acc * (d : Int))) acc
        = acc * dims.prod := by
  induction dims with
  | nil => intro acc _ _; simp
  | cons d t ih =>
    intro acc h0 hb
    have hd : 1 ≤ d := by
      rcases Nat.eq_zero_or_pos d with h | h
      · exact absurd (h ▸ List.mem_cons_self 0 t) hnz
      · exact h
    have htnz : ¬ 0 ∈ t := fun ht => hnz (List.mem_cons_of_mem d ht)
    have htp : 1 ≤ (t.prod : Int) := by
      have := Nat.one_le_iff_ne_zero.mpr
        (fun hcontra => htnz (List.prod_eq_zero_iff.mp hcontra))
      exact_mod_cast this
    have hprod : ((d :: t).prod : Int) = (d : Int) * t.prod := by
      push_cast [List.prod_cons]
      ring
    have hb' : acc * (d : Int) * t.prod ≤ 2147483647 := by
      calc acc * (d : Int) * t.prod = acc * ((d : Int) * t.prod) := by ring
        _ = acc * ((d :: t).prod : Int) := by rw [hprod]
        _ ≤ 2147483647 := hb
    have h0' : 0 ≤ acc * (d : Int) := by positivity
    have hsmall : acc * (d : Int) ≤ 2147483647 :=
      le_trans (le_mul_of_one_le_right h0' htp) hb'
    have hw : sWrap32 (acc * (d : Int)) = acc * (d : Int) :=
      sWrap32_eq_of_lt _ h0' (by omega)
    calc (d :: t).foldl (fun (acc : Int) (d : Nat) => sWrap32 (acc * (d : Int))) acc
        = t.foldl (fun (acc : Int) (d : Nat) => sWrap32 (acc * (d : Int)))
            (sWrap32 (acc * (d : Int))) := by simp
      _ = t.foldl (fun (acc : Int) (d : Nat) => sWrap32 (acc * (d : Int))) (acc * (d : Int)) := by
          rw [hw]
      _ = acc * (d : Int) * t.prod := ih htnz _ h0' hb'
      _ = acc * ((d :: t).prod : Int) := by rw [hprod]; ring

/-- Helper: `num_elements`, the `i32` wrapping fold of the dimensions,
equals the exact dimension product whenever that product fits `i32`. -/
theorem foldl_wrapMul_eq_prod (dims : List Nat)
    (hb : (dims.prod : Int) ≤ 2147483647) :
    dims.foldl (fun (acc : Int) (d : Nat) => sWrap32 (acc * (d : Int))) 1 = dims.prod := by
  by_cases hz : 0 ∈ dims
  · rw [foldl_wrapMul_mem_zero dims hz 1]
    have : dims.prod = 0 := List.prod_eq_zero_iff.mpr hz
    rw [this]
    simp
  · have := foldl_wrapMul_pos dims hz 1 (by norm_num) (by simpa using hb)
    simpa using this

/-- Helper: an `i8` value lies in `[-128, 128)`. -/
theorem toSigned8_range (b : Nat) : -128 ≤ toSigned8 b ∧ toSigned8 b < 128 := by
  simp only [toSigned8]
  split <;> omega

/-- Helper: evaluation of the parameter trailer on a stream whose layout
facts are given as hypotheses: for a `data_length` outside `{-1, 1, 2, 4}`
(and neither 0 nor -128), with the byte count in `i16` range, the decoder
reads the dimensions, consumes exactly `product(dims) * |data_length|`
payload bytes plus the zero description-length byte, and succeeds with an
empty value sequence. -/
theorem paramTrailer_eval (nameBytes s dims payload rest : List Nat)
    (dlB : Nat)
    (h1 : toSigned8 dlB ≠ 1) (h2 : toSigned8 dlB ≠ 2)
    (h4 : toSigned8 dlB ≠ 4) (hm1 : toSigned8 dlB ≠ -1)
    (h0 : toSigned8 dlB ≠ 0) (hm128 : toSigned8 dlB ≠ -128)
    (hsz : dims.prod * (toSigned8 dlB).natAbs ≤ 32767)
    (hpl : payload.length = dims.prod * (toSigned8 dlB).natAbs)
    (hget0 : s[0]? = some dlB)
    (hget1 : s[1]? = some dims.length)
    (hnlt1 : ¬ s.length < 2 + dims.length)
    (hdims : (s.drop 2).take dims.length = dims)
    (hnlt2 : ¬ s.length
      < 2 + dims.length + dims.prod * (toSigned8 dlB).natAbs)
    (hdropnd : s.drop (2 + dims.length) = payload ++ 0 :: rest)
    (hget2 : s[2 + dims.length + payload.length]? = some 0)
    (hfinal : s.drop (2 + dims.length + payload.length + 1) = rest) :
    paramTrailer nameBytes s
      = some ({ dataLength := toSigned8 dlB, numDimensions := dims.length,
                dimensions := dims, values := [], descCharsSize := 0,
                description := [] }, rest) := by
  have hrange := toSigned8_range dlB
  have habs1 : 1 ≤ (toSigned8 dlB).natAbs := Int.natAbs_pos.mpr h0
  have habs127 : (toSigned8 dlB).natAbs ≤ 127 := by omega
  have hprodle : dims.prod ≤ 32767 := by nlinarith [habs1, hsz]
  have habs : i8AbsWrap (toSigned8 dlB) = ((toSigned8 dlB).natAbs : Int) := by
    simp only [i8AbsWrap]
    rw [if_neg hm128]
  have hfold : dims.foldl (fun (acc : Int) (d : Nat) => sWrap32 (acc * (d : Int))) 1
      = (dims.prod : Int) :=
    foldl_wrapMul_eq_prod dims (by exact_mod_cast le_trans hprodle (by norm_num))
  have hw1 : sWrap16 (dims.prod : Int) = (dims.prod : Int) :=
    sWrap16_eq_of_lt _ (Int.natCast_nonneg _)
      (by exact_mod_cast lt_of_le_of_lt hprodle (by norm_num))
  have hw2 : sWrap16 ((toSigned8 dlB).natAbs : Int)
      = ((toSigned8 dlB).natAbs : Int) :=
    sWrap16_eq_of_lt _ (Int.natCast_nonneg _)
      (by exact_mod_cast lt_of_le_of_lt habs127 (by norm_num))
  have hcast : ((dims.prod : Int) * ((toSigned8 dlB).natAbs : Int))
      = ((dims.prod * (toSigned8 dlB).natAbs : Nat) : Int) := by push_cast; ring
  have hw3 : sWrap16 ((dims.prod : Int) * ((toSigned8 dlB).natAbs : Int))
      = ((dims.prod * (toSigned8 dlB).natAbs : Nat) : Int) := by
    rw [hcast]
    exact sWrap16_eq_of_lt _ (Int.natCast_nonneg _)
      (by exact_mod_cast lt_of_le_of_lt hsz (by norm_num))
  have hu1 : usizeOfInt ((dims.prod * (toSigned8 dlB).natAbs : Nat) : Int)
      = dims.prod * (toSigned8 dlB).natAbs := by
    rw [usizeOfInt_eq _ (Int.natCast_nonneg _)
      (by exact_mod_cast lt_of_le_of_lt hsz (by omega))]
    exact Int.toNat_natCast _
  have hu2 : usizeOfInt ((toSigned8 dlB).natAbs : Int)
      = (toSigned8 dlB).natAbs := by
    rw [usizeOfInt_eq _ (Int.natCast_nonneg _)
      (by exact_mod_cast lt_of_le_of_lt habs127 (by omega))]
    exact Int.toNat_natCast _
  have hne0 : ¬ (toSigned8 dlB).natAbs = 0 := Nat.one_le_iff_ne_zero.mp habs1
  simp only [paramTrailer, hget0, hget1]
  rw [if_neg hnlt1]
  simp only [hdims, hfold, habs, hw1, hw2, hw3, hu1, hu2]
  rw [if_neg hnlt2]
  rw [if_neg hne0]
  rw [hdropnd, ← hpl, List.take_left payload]
  simp only [hget2]
  have hvals : (chunksExact (toSigned8 dlB).natAbs payload).filterMap
      (fun c =>
        if toSigned8 dlB = 1 then some (ParamVal.pbyte (c.getD 0 0))
        else if toSigned8 dlB = 2 then some (ParamVal.pint (toSigned16 (le16 c)))
        else if toSigned8 dlB = 4 then some (ParamVal.pfloat (f32FromLeBytes c))
        else if toSigned8 dlB = -1 then some (ParamVal.pchar (c.getD 0 0))
        else none) = [] := by
    apply filterMap_none_eq_nil
    intro c
    rw [if_neg h1, if_neg h2, if_neg h4, if_neg hm1]
  simp only [hvals, hfinal]
  have hdesc : (List.take 0 nameBytes ++ List.replicate (0 - nameBytes.length) 0)
      = ([] : List Nat) := by simp
  rw [hdesc]
  rw [if_neg (by simp [show validUtf8 [] = true from rfl])]

/-- C9 (amended): for a parameter entry whose `data_length` byte is outside
`{-1, 1, 2, 4}` and also neither 0 nor -128, with
`product(dims) * |data_length|` within `i16` range, the decoder consumes
exactly that many payload bytes (the stream left over after the trailer is
exactly `rest`), produces an empty value sequence, and succeeds without
error. -/
theorem c9_amended (nameBytes dims payload rest : List Nat) (dlB : Nat)
    (h1 : toSigned8 dlB ≠ 1) (h2 : toSigned8 dlB ≠ 2)
    (h4 : toSigned8 dlB ≠ 4) (hm1 : toSigned8 dlB ≠ -1)
    (h0 : toSigned8 dlB ≠ 0) (hm128 : toSigned8 dlB ≠ -128)
    (hsz : dims.prod * (toSigned8 dlB).natAbs ≤ 32767)
    (hpl : payload.length = dims.prod * (toSigned8 dlB).natAbs) :
    paramTrailer nameBytes
        (dlB :: dims.length :: (dims ++ (payload ++ 0 :: rest)))
      = some ({ dataLength := toSigned8 dlB, numDimensions := dims.length,
                dimensions := dims, values := [], descCharsSize := 0,
                description := [] }, rest) := by
  obtain ⟨s, hs⟩ : ∃ t : List Nat,
      t = dlB :: dims.length :: (dims ++ (payload ++ 0 :: rest)) := ⟨_, rfl⟩
  rw [show (dlB :: dims.length :: (dims ++ (payload ++ 0 :: rest))) = s
    from hs.symm]
  have hslen : s.length = 2 + dims.length + payload.length + 1 + rest.length := by
    simp [hs]
    omega
  have hdrop2 : s.drop 2 = dims ++ (payload ++ 0 :: rest) := by
    rw [hs]
    rfl
  have hdims : (s.drop 2).take dims.length = dims := by
    rw [hdrop2]
    exact List.take_left dims _
  have hdropnd : s.drop (2 + dims.length) = payload ++ 0 :: rest := by
    have e : s.drop (2 + dims.length) = (s.drop 2).drop dims.length := by
      rw [List.drop_drop, Nat.add_comm]
    rw [e, hdrop2]
    exact List.drop_left dims _
  have hget0 : s[0]? = some dlB := by simp [hs]
  have hget1 : s[1]? = some dims.length := by simp [hs]
  have hidx : 2 + dims.length + payload.length
      = dims.length + payload.length + 1 + 1 := by omega
  have hget2 : s[2 + dims.length + payload.length]? = some 0 := by
    rw [hs, hidx]
    rw [List.getElem?_cons_succ, List.getElem?_cons_succ]
    rw [List.getElem?_append_right (Nat.le_add_right _ _)]
    rw [Nat.add_sub_cancel_left]
    rw [List.getElem?_append_right (le_refl _)]
    rw [Nat.sub_self]
    exact List.getElem?_cons_zero
  have hfinal : s.drop (2 + dims.length + payload.length + 1) = rest := by
    have e2 : s.drop (2 + dims.length + payload.length) = 0 :: rest := by
      rw [← List.drop_drop, hdropnd]
      exact List.drop_left payload _
    rw [← List.drop_drop, e2]
    simp
  have hnlt1 : ¬ s.length < 2 + dims.length := by
    rw [hslen]
    omega
  have hnlt2 : ¬ s.length
      < 2 + dims.length + dims.prod * (toSigned8 dlB).natAbs := by
    rw [hslen, ← hpl]
    omega
  exact paramTrailer_eval nameBytes s dims payload rest dlB h1 h2 h4 hm1 h0
    hm128 hsz hpl hget0 hget1 hnlt1 hdims hnlt2 hdropnd hget2 hfinal

/-- C9 (witness): `data_length = 3` with dimensions `[2]` and a 6-byte
payload. -/
theorem c9_witness :
    paramTrailer [88] [3, 1, 2, 9, 9, 9, 9, 9, 9, 0]
      = some ({ dataLength := 3, numDimensions := 1, dimensions := [2],
                values := [], descCharsSize := 0, description := [] },
              []) := by
  have h := c9_amended [88] [2] [9, 9, 9, 9, 9, 9] [] 3 (by decide) (by decide)
    (by decide) (by decide) (by decide) (by decide) (by decide) (by decide)
  exact h

/-- Helper: indexing past the end of a list gives `none`. -/
theorem getElem?_none_of_le {α : Type} (l : List α) (n : Nat)
    (h : l.length ≤ n) : l[n]? = none := by
  rw [List.getElem?_eq_none_iff]
  exact h

/-- C5 (amended): the entry walk (1) panics — rather than stopping — when
fewer than 2 bytes remain at the cursor; (2) stops, returning the groups
accumulated so far, when the id byte or the name-length byte is zero; and
(3) after an entry that decodes successfully with `offset = 0`, the walk
terminates with exactly that entry's groups, because the advance re-seats
the cursor on the zero offset bytes, which are then read as a zero
name-length/id pair. -/
theorem c5_amended :
    (∀ (fuel : Nat) (buf : List Nat) (g : Groups), buf.length < 2 →
      walkGo (fuel + 1) buf g = none)
    ∧ (∀ (fuel : Nat) (buf : List Nat) (g : Groups) (b0 b1 : Nat),
      buf[0]? = some b0 → buf[1]? = some b1 → b1 = 0 ∨ b0 = 0 →
      walkGo (fuel + 1) buf g = some g)
    ∧ (∀ (fuel : Nat) (buf : List Nat) (g g' : Groups) (n : Nat),
      entryStep buf g = StepRes.next g' n 0 → n ≤ 127 →
      buf[2 + n]? = some 0 → buf[3 + n]? = some 0 →
      walkGo (fuel + 2) buf g = some g') := by
  refine ⟨?_, ?_, ?_⟩
  · intro fuel buf g hlen
    have h1 : buf[1]? = none := getElem?_none_of_le buf 1 (by omega)
    cases hb : buf[0]? with
    | none => simp [walkGo, entryStep, hb]
    | some b0 => simp [walkGo, entryStep, hb, h1]
  · intro fuel buf g b0 b1 h0 h1 hor
    have hcond : toSigned8 b1 = 0 ∨ i8AbsUsize (toSigned8 b0) = 0 := by
      rcases hor with h | h
      · left
        subst h
        decide
      · right
        subst h
        decide
    simp only [walkGo, entryStep, h0, h1]
    rw [if_pos hcond]
  · intro fuel buf g g' n hstep hn h2 h3
    have h3lt : 3 + n < buf.length := by
      by_contra hcon
      rw [getElem?_none_of_le buf (3 + n) (by omega)] at h3
      exact Option.noConfusion h3
    have hidx : usizeOfInt (2 + (n : Int) + 0) = 2 + n := by
      rw [usizeOfInt_eq _ (by omega) (by omega)]
      omega
    have e0 : (buf.drop (2 + n))[0]? = some 0 := by
      rw [List.getElem?_drop]
      exact h2
    have e1 : (buf.drop (2 + n))[1]? = some 0 := by
      rw [List.getElem?_drop]
      rw [show 2 + n + 1 = 3 + n from by omega]
      exact h3
    have hcond : toSigned8 0 = 0 ∨ i8AbsUsize (toSigned8 0) = 0 :=
      Or.inl (by decide)
    simp only [walkGo, hstep, hidx]
    rw [if_neg (show ¬ buf.length < 2 + n from by omega)]
    simp only [walkGo, entryStep, e0, e1]
    rw [if_pos hcond]

/-- C5 (witness): a group entry `name = "G"` with `offset = 0` is the last
entry decoded. -/
theorem c5_witness :
    walkGo 2 [1, 255, 71, 0, 0, 0] []
      = some [(1, { name := [71], description := [], locked := false,
                    params := [] })] := by
  have h := c5_amended.2.2 0 [1, 255, 71, 0, 0, 0] []
    [(1, { name := [71], description := [], locked := false, params := [] })]
    1 (by with_unfolding_all rfl) (by decide) (by decide) (by decide)
  exact h

/-- Helper: a split always yields at least one piece. -/
theorem splitOnByte_ne_nil (sep : Nat) (l : List Nat) :
    splitOnByte sep l ≠ [] := by
  induction l with
  | nil => simp [splitOnByte]
  | cons b t ih =>
    unfold splitOnByte
    cases h : splitOnByte sep t with
    | nil => exact absurd h ih
    | cons hd tl =>
      dsimp only
      split <;> simp

/-- Helper: the first piece of a split is the longest separator-free
prefix. -/
theorem splitOnByte_headD_takeWhile (sep : Nat) (l : List Nat) :
    (splitOnByte sep l).headD [] = l.takeWhile (fun b => b != sep) := by
  induction l with
  | nil => rfl
  | cons b t ih =>
    unfold splitOnByte
    cases h : splitOnByte sep t with
    | nil => exact absurd h (splitOnByte_ne_nil sep t)
    | cons hd tl =>
      by_cases hb : b = sep
      · subst hb
        simp [List.takeWhile_cons]
      · rw [h] at ih
        simp only [List.headD_cons] at ih
        simp [hb, List.takeWhile_cons, ih]

/-- Helper: splitting at the first separator occurrence peels off the
separator-free prefix. -/
theorem splitOnByte_append (sep : Nat) (g r : List Nat)
    (hg : g.contains sep = false) :
    splitOnByte sep (g ++ sep :: r) = g :: splitOnByte sep r := by
  induction g with
  | nil =>
    simp only [List.nil_append]
    cases h : splitOnByte sep r with
    | nil => exact absurd h (splitOnByte_ne_nil sep r)
    | cons hd tl => simp [splitOnByte, h]
  | cons a g' ih =>
    have ha : a ≠ sep := by
      intro hcon
      subst hcon
      simp [List.contains_cons] at hg
    have hg' : g'.contains sep = false := by
      simp only [List.contains_cons, Bool.or_eq_false_iff] at hg
      exact hg.2
    simp only [List.cons_append]
    cases h : splitOnByte sep r with
    | nil => exact absurd h (splitOnByte_ne_nil sep r)
    | cons hd tl =>
      have ih' := ih hg'
      rw [h] at ih'
      simp [splitOnByte, ih', ha, h]

/-- C6 (amended): `get` returns nothing for keys with no separator; for a
key containing `'.'` it splits at the dots — the group name is the text
before the first `'.'` (even when a `':'` occurs earlier!) and the
parameter name the text between the first and second `'.'`; only for keys
without any `'.'` does it split at `':'` the same way. -/
theorem c6_amended :
    (∀ (pb : ParameterBlock) (key : List Nat), key.contains 46 = false →
      key.contains 58 = false → pb.get key = none)
    ∧ (∀ (pb : ParameterBlock) (g rest : List Nat), g.contains 46 = false →
      pb.get (g ++ 46 :: rest)
        = (alistGet pb.groups g).bind
            (fun gr => alistGet gr.params (rest.takeWhile (fun b => b != 46))))
    ∧ (∀ (pb : ParameterBlock) (g rest : List Nat),
      (g ++ 58 :: rest).contains 46 = false → g.contains 58 = false →
      pb.get (g ++ 58 :: rest)
        = (alistGet pb.groups g).bind
            (fun gr => alistGet gr.params (rest.takeWhile (fun b => b != 58)))) := by
  refine ⟨?_, ?_, ?_⟩
  · intro pb key h46 h58
    simp only [ParameterBlock.get]
    rw [if_neg (by rw [h46]; exact Bool.false_ne_true)]
    rw [if_neg (by rw [h58]; exact Bool.false_ne_true)]
  · intro pb g rest hg
    have hc : (g ++ 46 :: rest).contains 46 = true := by simp
    simp only [ParameterBlock.get]
    rw [if_pos hc]
    dsimp only
    rw [splitOnByte_append 46 g rest hg]
    simp only [List.headD_cons, List.drop_one, List.tail_cons]
    rw [splitOnByte_headD_takeWhile]
    cases alistGet pb.groups g <;> simp
  · intro pb g rest h46 hg
    have hc : (g ++ 58 :: rest).contains 58 = true := by simp
    simp only [ParameterBlock.get]
    rw [if_neg (by rw [h46]; exact Bool.false_ne_true)]
    rw [if_pos hc]
    dsimp only
    rw [splitOnByte_append 58 g rest hg]
    simp only [List.headD_cons, List.drop_one, List.tail_cons]
    rw [splitOnByte_headD_takeWhile]
    cases alistGet pb.groups g <;> simp

/-- C6 (witness): `get "G.P"` finds parameter `P` of group `G`. -/
theorem c6_witness :
    ParameterBlock.get pbSimple [71, 46, 80] = some pvSimple := by
  have h := c6_amended.2.1 pbSimple [71] [80] (by decide)
  rw [show ([71, 46, 80] : List Nat) = [71] ++ 46 :: [80] from rfl, h]
  with_unfolding_all decide

/-- C8 (amended): constructing the adapter over any source shorter than
512 bytes panics in the header decoder's `unwrap` (modelled by `none`)
instead of returning an error value. -/
theorem c8_amended (src : List Nat) (h : src.length < 512) :
    constructC3d src = none :=
  constructC3d_of_short src h

/-- C8 (witness): the empty byte source. -/
theorem c8_witness : constructC3d [] = none :=
  c8_amended [] (by decide)
